import Mathlib

/-!
Verification of the menu extraction and normalization pipeline of the
morning-assistant repository.  The Python sources embedded here are
`code/menu_extractor.py`, `code/docupipe_extractor.py` and
`code/table_parser.py`.  Pure Python functions become Lean functions on
`String` / `List Char`; Python `None` / raised exceptions become `Option`
(`none` models an uncaught exception or a returned `None`).
-/

/-- Python ASCII whitespace, as recognised by `str.split()`, `str.strip()`
and the regex class `\s` on the data this pipeline handles. -/
def pySpace (c : Char) : Bool :=
  c == ' ' || c == '\t' || c == '\n' || c == '\x0d' || c == '\x0b' || c == '\x0c'

/-- Python `str.lower`, restricted to the alphabet this program compares
(ASCII letters and the accented capitals occurring in French menu text).
All other characters are fixed points, as in Python. -/
def lowerChar : Char → Char
  | 'A' => 'a' | 'B' => 'b' | 'C' => 'c' | 'D' => 'd' | 'E' => 'e' | 'F' => 'f'
  | 'G' => 'g' | 'H' => 'h' | 'I' => 'i' | 'J' => 'j' | 'K' => 'k' | 'L' => 'l'
  | 'M' => 'm' | 'N' => 'n' | 'O' => 'o' | 'P' => 'p' | 'Q' => 'q' | 'R' => 'r'
  | 'S' => 's' | 'T' => 't' | 'U' => 'u' | 'V' => 'v' | 'W' => 'w' | 'X' => 'x'
  | 'Y' => 'y' | 'Z' => 'z'
  | 'É' => 'é' | 'È' => 'è' | 'Ê' => 'ê' | 'Ë' => 'ë' | 'À' => 'à' | 'Â' => 'â'
  | 'Ç' => 'ç' | 'Î' => 'î' | 'Ï' => 'ï' | 'Ô' => 'ô' | 'Û' => 'û' | 'Ù' => 'ù'
  | c => c

/-- Python `str.lower` on a whole string (see `lowerChar`). -/
def pyLower (s : String) : String := ⟨s.data.map lowerChar⟩

/-- `needle.isPrefixOf haystack` on raw character lists. -/
def isPrefL : List Char → List Char → Bool
  | [], _ => true
  | _ :: _, [] => false
  | a :: as, b :: bs => a == b && isPrefL as bs

/-- Python's substring test `needle in haystack`. -/
def containsL (needle : List Char) : List Char → Bool
  | [] => isPrefL needle []
  | c :: cs => isPrefL needle (c :: cs) || containsL needle cs

/-- Python `a in b` on strings. -/
def pyContains (haystack needle : String) : Bool := containsL needle.data haystack.data

/-- `dropWhile` of trailing whitespace (right side of Python `str.strip`). -/
def dropTrailWs (l : List Char) : List Char := (l.reverse.dropWhile pySpace).reverse

/-- Python `str.strip()` on a character list. -/
def stripWs (l : List Char) : List Char := dropTrailWs (l.dropWhile pySpace)

/-- Python `str.strip()`. -/
def pyStrip (s : String) : String := ⟨stripWs s.data⟩

/-- Helper for `splitWs`: accumulates the current word (reversed). -/
def splitWsAux : List Char → List Char → List (List Char)
  | [], acc => if acc.isEmpty then [] else [acc.reverse]
  | c :: cs, acc =>
    if pySpace c then
      if acc.isEmpty then splitWsAux cs [] else acc.reverse :: splitWsAux cs []
    else splitWsAux cs (c :: acc)

/-- Python `str.split()` (no argument): split on whitespace runs, dropping
empty results. -/
def splitWs (l : List Char) : List (List Char) := splitWsAux l []

/-- Python `' '.join(words)` on character lists. -/
def joinWords : List (List Char) → List Char
  | [] => []
  | [w] => w
  | w :: ws => w ++ ' ' :: joinWords ws

/-- `re.sub(r'\*+', '', text)`: deleting every maximal run of asterisks is
deleting every asterisk. -/
def filterStar (l : List Char) : List Char := l.filter (fun c => !(c == '*'))

/-- `EnhancedMenuExtractor.clean_text` (docupipe_extractor.py, lines 156-167)
on a character list: remove asterisks, re-join the whitespace-split words
with single spaces, then strip. -/
def cleanTextL (l : List Char) : List Char :=
  stripWs (joinWords (splitWs (filterStar l)))

/-- `EnhancedMenuExtractor.clean_text` (docupipe_extractor.py, lines 156-167).
The falsy check `if not text` on a string argument is the empty-string test. -/
def clean_text (s : String) : String :=
  if s = "" then "" else ⟨cleanTextL s.data⟩

/-- `'A' <= c <= 'Z'`, the regex class `[A-Z]`. -/
def isUpperAscii (c : Char) : Bool := 'A' ≤ c && c ≤ 'Z'

/-- The regex class `[0-9]` (`\d` on this data). -/
def isDigitC (c : Char) : Bool := '0' ≤ c && c ≤ '9'

/-- The regex class `[-_]` used as delimiter in the filename pattern. -/
def isSepC (c : Char) : Bool := c == '-' || c == '_'

/-- The regex class `[a-zA-Zéèêë]` of the filename month-name group. -/
def isMonthLetter (c : Char) : Bool :=
  ('a' ≤ c && c ≤ 'z') || ('A' ≤ c && c ≤ 'Z') ||
    c == 'é' || c == 'è' || c == 'ê' || c == 'ë'

/-- Python `int` on a matched digit group. -/
def digitsToNat (l : List Char) : Nat := l.foldl (fun n c => n * 10 + (c.toNat - 48)) 0

/-- Match the literal `lit` at the head, returning the rest. -/
def expectLit (lit : List Char) (l : List Char) : Option (List Char) :=
  if isPrefL lit l then some (l.drop lit.length) else none

/-- Match one `[-_]` delimiter at the head. -/
def expectSep : List Char → Option (List Char)
  | c :: cs => if isSepC c then some cs else none
  | [] => none

/-- Match a nonempty maximal run of characters satisfying `p` at the head
(greedy `X+`), returning the run and the rest. -/
def expectRun (p : Char → Bool) (l : List Char) : Option (List Char × List Char) :=
  let run := l.takeWhile p
  if run.isEmpty then none else some (run, l.drop run.length)

/-- Attempt of the regex `menu[-_]du[-_](\d+)[-_]au[-_](\d+)[-_]([a-zA-Zéèêë]+)`
(menu_extractor.py line 87) anchored at the head of `l`; yields the three
groups.  Each greedy run is followed by a character class disjoint from it,
so maximal-munch needs no backtracking. -/
def matchMenuDuAt (l : List Char) : Option (Nat × Nat × List Char) := do
  let r ← expectLit "menu".data l
  let r ← expectSep r
  let r ← expectLit "du".data r
  let r ← expectSep r
  let (d1, r) ← expectRun isDigitC r
  let r ← expectSep r
  let r ← expectLit "au".data r
  let r ← expectSep r
  let (d2, r) ← expectRun isDigitC r
  let r ← expectSep r
  let (mn, _) ← expectRun isMonthLetter r
  some (digitsToNat d1, digitsToNat d2, mn)

/-- `re.search` of the filename pattern: leftmost successful anchor. -/
def searchMenuDu : List Char → Option (Nat × Nat × List Char)
  | [] => matchMenuDuAt []
  | c :: cs =>
    match matchMenuDuAt (c :: cs) with
    | some r => some r
    | none => searchMenuDu cs

/-- `month_map` of menu_extractor.py lines 74-79, in dict insertion order. -/
def month_map : List (String × Nat) :=
  [("janvier",1),("février",2),("mars",3),("avril",4),("mai",5),("juin",6),
   ("juillet",7),("août",8),("septembre",9),("octobre",10),("novembre",11),("décembre",12),
   ("january",1),("february",2),("march",3),("april",4),("may",5),("june",6),
   ("july",7),("august",8),("september",9),("october",10),("november",11),("december",12)]

/-- `days_in_month` of menu_extractor.py line 82 (non-leap year). -/
def days_in_month : List Nat := [31,28,31,30,31,30,31,31,30,31,30,31]

/-- First month-map entry whose key is a substring of `hay`
(the `for month_key, month_num in month_map.items()` loops). -/
def findMonthSub (hay : List Char) : Option Nat :=
  (month_map.find? (fun kv => containsL kv.1.data hay)).map (fun kv => kv.2)

/-- Result dictionary of `parse_filename_date_range`. -/
structure DateRange where
  start_month : Nat
  end_month : Nat
  start_day : Option Nat
  end_day : Option Nat
deriving DecidableEq, Repr

namespace MenuExtractor

/-- `DivonneMenuExtractor.parse_filename_date_range` (menu_extractor.py,
lines 71-129). -/
def parse_filename_date_range (filename : String) : DateRange :=
  let fl := (pyLower filename).data
  match searchMenuDu fl with
  | none =>
    match findMonthSub fl with
    | some m => ⟨m, m, none, none⟩
    | none => ⟨9, 9, none, none⟩
  | some (sd, ed, mn) =>
    let em := (findMonthSub mn).getD 9
    if ed < sd then
      let sm := if 1 < em then em - 1 else 12
      let maxd := days_in_month.getD (sm - 1) 0
      let sd' := if maxd < sd then maxd else sd
      ⟨sm, em, some sd', some ed⟩
    else
      ⟨em, em, some sd, some ed⟩

end MenuExtractor

/-- Python truthiness of the optional day fields
(`if date_info['start_day'] and date_info['end_day']`): present and nonzero. -/
def truthyOpt : Option Nat → Bool
  | none => false
  | some n => n != 0

/-- `datetime.date(2025, m, d)`: `some (m, d)` when the date is valid,
`none` models the `ValueError`.  2025 is not a leap year. -/
def mkDate2025 (m d : Nat) : Option (Nat × Nat) :=
  if 1 ≤ m ∧ m ≤ 12 ∧ 1 ≤ d ∧ d ≤ days_in_month.getD (m-1) 0 then some (m, d) else none

/-- Zero-padded two-digit field of `strftime`. -/
def pad2 (n : Nat) : String := if n < 10 then "0" ++ toString n else toString n

/-- `.strftime('%Y-%m-%d')` for year 2025. -/
def formatDate2025 (md : Nat × Nat) : String := "2025-" ++ pad2 md.1 ++ "-" ++ pad2 md.2

namespace MenuExtractor

/-- The month/day selection step of `calculate_menu_date`
(menu_extractor.py, lines 140-164): every branch retains `day_number`
as the day component. -/
def calc_month_day (filename : String) (day_number : Nat) : Nat × Nat :=
  let info := parse_filename_date_range filename
  if truthyOpt info.start_day && truthyOpt info.end_day then
    let sd := info.start_day.getD 0
    let ed := info.end_day.getD 0
    if info.start_month ≠ info.end_month then
      if sd ≤ day_number then (info.start_month, day_number)
      else if day_number ≤ ed then (info.end_month, day_number)
      else (info.end_month, day_number)
    else (info.start_month, day_number)
  else (info.end_month, day_number)

/-- `DivonneMenuExtractor.calculate_menu_date` (menu_extractor.py, lines
131-171).  `none` models an uncaught `ValueError`: the `except` branch
re-raises when `date(year, month, min(actual_day, 28))` is itself invalid. -/
def calculate_menu_date (filename : String) (day_number : Nat) : Option String :=
  let md := calc_month_day filename day_number
  match mkDate2025 md.1 md.2 with
  | some d => some (formatDate2025 d)
  | none => (mkDate2025 md.1 (min md.2 28)).map formatDate2025

end MenuExtractor

namespace Docupipe

/-- `EnhancedMenuExtractor.parse_filename_dates` (docupipe_extractor.py,
lines 115-130): `(start_month, end_month)`; the year is always 2025. -/
def parse_filename_dates (filename : String) : Nat × Nat :=
  let fl := pyLower filename
  if pyContains fl "29-au-03-octobre" then (9, 10)
  else if pyContains fl "septembre" then (9, 9)
  else if pyContains fl "octobre" then (10, 10)
  else (9, 9)

/-- `EnhancedMenuExtractor.fix_date_logic` (docupipe_extractor.py, lines
132-154), returning the `date` object as `(month, day)`; `none` models an
uncaught `ValueError` (the `except` branch re-raises when the clamped date
is itself invalid). -/
def fix_date_logic (filename : String) (day_number : Nat) : Option (Nat × Nat) :=
  let info := parse_filename_dates filename
  let md :=
    if pyContains (pyLower filename) "29-au-03-octobre" then
      if day_number ≤ 30 then (9, day_number) else (10, day_number - 30)
    else (info.1, day_number)
  match mkDate2025 md.1 md.2 with
  | some d => some d
  | none => mkDate2025 md.1 (min md.2 28)

/-- Case-insensitive `re.match(r'(lit)\s+(.*)', text, re.IGNORECASE)`
(docupipe_extractor.py line 183): the prefix must equal `lit` up to case,
followed by at least one whitespace character; the second group is the
remainder up to a newline (`.` does not match `\n`).  Returns the two
captured groups. -/
def matchCatCI (lit : List Char) (l : List Char) : Option (List Char × List Char) :=
  let p := l.take lit.length
  if p.length == lit.length && p.map lowerChar == lit.map lowerChar then
    let r := l.drop lit.length
    let ws := r.takeWhile pySpace
    if ws.isEmpty then none
    else some (p, (r.drop ws.length).takeWhile (fun c => !(c == '\n')))
  else none

/-- `dessert_indicators` of docupipe_extractor.py line 192. -/
def dessert_indicators : List String :=
  ["sélection", "yaourt", "fromage", "fruit", "compote", "mousse", "cake", "cookies"]

/-- The keyword-driven segmentation loop of `format_dessert`
(docupipe_extractor.py, lines 194-204): walk the words, starting a new
segment whenever an indicator word is met while a segment is open. -/
def segLoop : List (List Char) → List (List Char) → List (List (List Char)) → List (List (List Char))
  | [], current, desserts => if current.isEmpty then desserts else desserts ++ [current]
  | w :: ws, current, desserts =>
    if (dessert_indicators.any (fun ind => w.map lowerChar == ind.data)) && !current.isEmpty then
      segLoop ws [w] (desserts ++ [current])
    else segLoop ws (current ++ [w]) desserts

/-- The segments `format_dessert` builds from a cell (each one re-joined
with single spaces, as `' '.join(current)` does). -/
def segmentsOf (l : List Char) : List (List Char) :=
  (segLoop (splitWs l) [] []).map joinWords

/-- `' / '.join(desserts)`. -/
def joinSlash : List (List Char) → List Char
  | [] => []
  | [s] => s
  | s :: ss => s ++ (' ' :: '/' :: ' ' :: joinSlash ss)

/-- `EnhancedMenuExtractor.format_dessert` (docupipe_extractor.py, lines
169-209): try the four category patterns (in order, case-insensitively,
anchored at the start); otherwise fall back to keyword segmentation, and
return the input unchanged when it yields at most one segment. -/
def format_dessert (text : String) : String :=
  if text = "" then ""
  else
    let l := text.data
    match matchCatCI "Sélection de notre affineur".data l with
    | some g => ⟨g.1 ++ (' ' :: '/' :: ' ' :: g.2)⟩
    | none =>
    match matchCatCI "Yaourt".data l with
    | some g => ⟨g.1 ++ (' ' :: '/' :: ' ' :: g.2)⟩
    | none =>
    match matchCatCI "Fromage blanc".data l with
    | some g => ⟨g.1 ++ (' ' :: '/' :: ' ' :: g.2)⟩
    | none =>
    match matchCatCI "Fromage qui chlingue".data l with
    | some g => ⟨g.1 ++ (' ' :: '/' :: ' ' :: g.2)⟩
    | none =>
      let segs := segmentsOf l
      if 1 < segs.length then ⟨joinSlash segs⟩ else text

/-- The accompaniment normalization inside `extract_table_data`
(docupipe_extractor.py, lines 324-326): clean, then replace empty or
"non détecté"/"non detecte" (case-insensitively) by `"-"`. -/
def normalize_accompagnement (v : String) : String :=
  let a := clean_text v
  if a = "" || pyLower a = "non détecté" || pyLower a = "non detecte" then "-" else a

end Docupipe

/-- `DivonneMenuExtractor.format_accompagnement` (menu_extractor.py, lines
47-51), modelled for string inputs (`pd.isna` is false on strings). -/
def format_accompagnement (text : String) : String :=
  if pyLower text = "non détecté" ∨ pyLower text = "non detecte" ∨ pyLower text = "" then "-"
  else text

/-- Attempt of the regex `(lit)\s+([A-Z][^/]+)` (menu_extractor.py, lines
60-63) anchored at the head of `l`: the literal, at least one whitespace
character, an ASCII capital, then a nonempty greedy run of non-slash
characters.  Returns the substitution `\1 / \2` of the matched span and the
unmatched rest. -/
def tryMatchSub (lit : List Char) (l : List Char) : Option (List Char × List Char) :=
  if isPrefL lit l then
    let r := l.drop lit.length
    let ws := r.takeWhile pySpace
    if ws.isEmpty then none
    else
      match r.drop ws.length with
      | [] => none
      | u :: r2 =>
        if isUpperAscii u then
          let body := r2.takeWhile (fun c => !(c == '/'))
          if body.isEmpty then none
          else some (lit ++ (' ' :: '/' :: ' ' :: u :: body), r2.drop body.length)
        else none
  else none

/-- `re.sub` driver for `tryMatchSub`: scan left to right, replace each
non-overlapping match and continue after it.  The fuel argument (the
length of the scanned list suffices, every match consumes at least one
character) makes the recursion structural. -/
def subPAux (lit : List Char) : Nat → List Char → List Char
  | _, [] => []
  | 0, l => l
  | fuel+1, c :: cs =>
    match tryMatchSub lit (c :: cs) with
    | some (rep, rest) => rep ++ subPAux lit fuel rest
    | none => c :: subPAux lit fuel cs

/-- `re.sub(r'(lit)\s+([A-Z][^/]+)', r'\1 / \2', s)`. -/
def pySubDessert (lit : String) (s : List Char) : List Char := subPAux lit.data s.length s

namespace MenuExtractor

/-- `DivonneMenuExtractor.format_dessert` (menu_extractor.py, lines 53-69):
the four substitution patterns applied in order; falsy input is returned
unchanged. -/
def format_dessert (text : String) : String :=
  if text = "" then text
  else
    let t1 := pySubDessert "Sélection de notre affineur" text.data
    let t2 := pySubDessert "Yaourt" t1
    let t3 := pySubDessert "Fromage blanc" t2
    let t4 := pySubDessert "Fromage qui chlingue" t3
    ⟨t4⟩

end MenuExtractor

/-- One parsed day-menu dictionary produced by `parse_markdown_table`
(docupipe_extractor.py line 258 / table_parser.py line 67). -/
structure Menu where
  day_of_week : String
  day_number : Nat
  entree : String
  plats : String
  accompagnement : String
  dessert : String
deriving DecidableEq, Repr

/-- Python `s.split(sep)` for a one-character separator: empty pieces are
kept, splitting `""` yields `[""]`. -/
def splitOnChar (sep : Char) (l : List Char) : List (List Char) :=
  l.foldr (fun c acc =>
    match acc with
    | [] => [[]]
    | h :: t => if c == sep then [] :: h :: t else (c :: h) :: t) [[]]

/-- The weekday alternation of the day-header regex
`(Lundi|Mardi|Mercredi|Jeudi|Vendredi)\s*(\d+)`. -/
def weekdays : List String := ["Lundi", "Mardi", "Mercredi", "Jeudi", "Vendredi"]

/-- Attempt of the day-header regex anchored at the head of `l`: a weekday
name, optional whitespace, then at least one digit. -/
def matchDayAt (l : List Char) : Option (String × Nat) :=
  match weekdays.find? (fun w => isPrefL w.data l) with
  | none => none
  | some w =>
    let r := l.drop w.data.length
    let ds := (r.drop (r.takeWhile pySpace).length).takeWhile isDigitC
    if ds.isEmpty then none else some (w, digitsToNat ds)

/-- `re.search` of the day-header regex: leftmost successful anchor. -/
def searchDay : List Char → Option (String × Nat)
  | [] => none
  | c :: cs =>
    match matchDayAt (c :: cs) with
    | some r => some r
    | none => searchDay cs

/-- The common row-extraction prologue of both `parse_markdown_table`
implementations (docupipe_extractor.py lines 213-237 / table_parser.py
lines 20-44): keep the lines starting with `|`, fail soft (`none`) below
two of them, drop separator-decoration lines, split each line on `|`,
strip the cells and drop the empty ones, and fail soft below two usable
rows. -/
def parseRows (text : String) : Option (List (List (List Char))) :=
  let lines := splitOnChar '\n' (stripWs text.data)
  let table_lines := lines.filter (fun ln =>
    match stripWs ln with
    | c :: _ => c == '|'
    | [] => false)
  if table_lines.length < 2 then none
  else
    let rows := (table_lines.filter (fun ln =>
        !(containsL ":---".data ln || containsL "----".data ln))).filterMap (fun ln =>
      let cells := ((splitOnChar '|' ln).map stripWs).filter (fun c => !c.isEmpty)
      if cells.isEmpty then none else some cells)
    if rows.length < 2 then none else some rows

namespace Docupipe

/-- The day-column scan of `parse_markdown_table` (docupipe_extractor.py,
lines 239-251): every row and every cell except column 0 is scanned, and
the first day-header match per column index is kept.  Each entry is
`(column_index, day_name, day_num)`. -/
def findDays (rows : List (List (List Char))) : List (Nat × String × Nat) :=
  rows.foldl (fun acc row =>
    (row.enum.filterMap (fun ic =>
      if ic.1 == 0 then none
      else (searchDay ic.2).map (fun dn => (ic.1, dn.1, dn.2)))).foldl
      (fun acc e => if acc.any (fun d => d.1 == e.1) then acc else acc ++ [e]) acc) []

/-- The per-day field extraction of `parse_markdown_table`
(docupipe_extractor.py, lines 267-286): walk every row, skip short rows,
empty cells and cells that look like a day header, and classify by the
label cell. -/
def buildMenu (rows : List (List (List Char))) (day : Nat × String × Nat) : Menu :=
  rows.foldl (fun menu row =>
    if row.length ≤ day.1 then menu
    else
      let label := (row.headD []).map lowerChar
      let value := row.getD day.1 []
      if value.isEmpty || (searchDay value).isSome then menu
      else if containsL "entrée".data label || containsL "entree".data label then
        { menu with entree := ⟨value⟩ }
      else if containsL "plat".data label then { menu with plats := ⟨value⟩ }
      else if containsL "accompagnement".data label then
        { menu with accompagnement := if value.isEmpty then "-" else ⟨value⟩ }
      else if containsL "dessert".data label then { menu with dessert := ⟨value⟩ }
      else menu)
    ⟨day.2.1, day.2.2, "", "", "", ""⟩

/-- `EnhancedMenuExtractor.parse_markdown_table` (docupipe_extractor.py,
lines 211-290). -/
def parse_markdown_table (text : String) : List Menu :=
  match parseRows text with
  | none => []
  | some rows => (findDays rows).map (buildMenu rows)

end Docupipe

namespace TableParser

/-- `parse_markdown_table` of table_parser.py (lines 9-95): day headers are
read from row 0 only, and the field rows are `rows[1:]` with no day-header
or empty-value skipping. -/
def parse_markdown_table (text : String) : List Menu :=
  match parseRows text with
  | none => []
  | some rows =>
    let day_row := rows.headD []
    let days := day_row.enum.filterMap (fun ic =>
      if ic.1 == 0 then none
      else (searchDay ic.2).map (fun dn => (ic.1, dn.1, dn.2)))
    days.map (fun day =>
      (rows.tailD []).foldl (fun menu row =>
        if row.length ≤ day.1 then menu
        else
          let label := (row.headD []).map lowerChar
          let value := row.getD day.1 []
          if containsL "entrée".data label || containsL "entree".data label then
            { menu with entree := ⟨value⟩ }
          else if containsL "plat".data label then { menu with plats := ⟨value⟩ }
          else if containsL "accompagnement".data label then
            { menu with accompagnement := if value.isEmpty then "-" else ⟨value⟩ }
          else if containsL "dessert".data label then { menu with dessert := ⟨value⟩ }
          else menu)
        ⟨day.2.1, day.2.2, "", "", "", ""⟩)

end TableParser

/-- One stored record of the pipeline (the dictionaries of
docupipe_extractor.py line 330 and the CSV rows of menu_extractor.py). -/
structure MenuRow where
  filename : String
  date : String
  day_of_week : String
  day_number : Nat
  entree : String
  plats : String
  accompagnement : String
  dessert : String
deriving DecidableEq, Repr

/-- Lexicographic (code-point) string comparison, Python's `<=` on `str`,
which both sort steps use through their `date` keys. -/
def strLeL : List Char → List Char → Bool
  | [], _ => true
  | _ :: _, [] => false
  | a :: as, b :: bs =>
    if a.toNat < b.toNat then true
    else if b.toNat < a.toNat then false
    else strLeL as bs

/-- `a <= b` on strings (lexicographic). -/
def strLe (a b : String) : Bool := strLeL a.data b.data

/-- The sort key relation of `all_entries.sort(key=lambda x: x['date'])`
(docupipe_extractor.py line 397) and `df.sort_values('date')`
(menu_extractor.py line 205). -/
def rowLe (a b : MenuRow) : Prop := strLe a.date b.date = true

instance : DecidableRel rowLe := fun a b =>
  inferInstanceAs (Decidable (strLe a.date b.date = true))

/-- Ascending stable sort by the `date` field, the model of both
`list.sort(key=...)` and `DataFrame.sort_values('date')`. -/
def sortByDate (l : List MenuRow) : List MenuRow := l.insertionSort rowLe

/-- The record-merging step of `process_all_menus` (docupipe_extractor.py,
lines 370-397): per-file batches of extracted entries are concatenated
(`all_entries.extend(entries)`) and then sorted by date; no keying or
deduplication by date happens anywhere in it. -/
def process_all_menus_merge (batches : List (List MenuRow)) : List MenuRow :=
  sortByDate batches.flatten

/-- The data-processing core of
`DivonneMenuExtractor.extract_and_process_menus` (menu_extractor.py, lines
188-205): format accompaniments and desserts, recompute every date, sort.
`none` models an uncaught `ValueError` from `calculate_menu_date`. -/
def processRows (rows : List MenuRow) : Option (List MenuRow) :=
  let r1 := rows.map (fun r => { r with accompagnement := format_accompagnement r.accompagnement })
  let r2 := r1.map (fun r => { r with dessert := MenuExtractor.format_dessert r.dessert })
  (r2.mapM (fun r =>
    (MenuExtractor.calculate_menu_date r.filename r.day_number).map
      (fun d => { r with date := d }))).map sortByDate

/-- What a run of `extract_and_process_menus` hands back: the Python return
value (`none` is Python's `None`) and whether `save_menu_data` ran. -/
structure RunResult where
  returned : Option (List MenuRow)
  saved : Bool
deriving DecidableEq, Repr

/-- `DivonneMenuExtractor.extract_and_process_menus` (menu_extractor.py,
lines 173-226).  `csv` is the result of reading the input file (`none`
models `FileNotFoundError`).  The outer `Option` models an uncaught
exception during processing. -/
def extract_and_process_menus (csv : Option (List MenuRow)) (target_date : Option String) :
    Option RunResult :=
  match csv with
  | none => some ⟨none, false⟩
  | some rows =>
    match processRows rows with
    | none => none
    | some sorted =>
      match target_date with
      | some td =>
        let found := sorted.filter (fun r => r.date == td)
        if found.isEmpty then some ⟨none, false⟩ else some ⟨some found, false⟩
      | none => some ⟨none, true⟩

/-- Scenario E input: a markdown menu table whose day-header row comes first. -/
def headerFirstTable : String :=
  "| X | Lundi 6 | Mardi 7 |\n| Entr\u00e9e | A | B |\n| Plats | C | D |\n| Accompagnement | E | F |\n| Dessert | G | H |"

/-- Scenario E input: the same table rows with the day-header row last. -/
def headerLastTable : String :=
  "| Entr\u00e9e | A | B |\n| Plats | C | D |\n| Accompagnement | E | F |\n| Dessert | G | H |\n| X | Lundi 6 | Mardi 7 |"

/-- A record extracted from the month-spanning file for 2025-10-02. -/
def rowThu : MenuRow :=
  ⟨"menu-du-29-au-03-octobre.jpg", "2025-10-02", "Jeudi", 2, "Salade", "Poulet", "Riz", "Yaourt"⟩

/-- A different record carrying the same date, from a second batch. -/
def rowThu2 : MenuRow :=
  ⟨"menu-b.jpg", "2025-10-02", "Jeudi", 2, "Carottes", "Poisson", "-", "Fruit"⟩

/-- A stored CSV row whose date resolves to 2025-10-08 (Scenario B file). -/
def rowWed : MenuRow :=
  ⟨"menu-du-06-au-10-octobre.jpg", "", "Mercredi", 8, "A", "B", "C", "D"⟩

/-! ### Lemmas about the text-cleaning pipeline -/

theorem pySpace_lowerChar (c : Char) : pySpace (lowerChar c) = pySpace c := by
  unfold lowerChar
  split <;> rfl

theorem star_lowerChar (c : Char) : (lowerChar c == '*') = (c == '*') := by
  unfold lowerChar
  split <;> rfl

theorem lowerChar_space : lowerChar ' ' = ' ' := rfl

theorem splitWsAux_good (l : List Char) : ∀ (acc : List Char),
    (∀ c ∈ acc, pySpace c = false) →
    ∀ t ∈ splitWsAux l acc, t ≠ [] ∧ ∀ c ∈ t, pySpace c = false := by
  induction l with
  | nil =>
    intro acc hacc t ht
    simp only [splitWsAux] at ht
    split at ht
    · simp at ht
    · next h =>
      simp only [List.mem_singleton] at ht
      subst ht
      refine ⟨?_, ?_⟩
      · intro hnil
        rw [List.reverse_eq_nil_iff] at hnil
        simp [hnil] at h
      · intro c hc
        exact hacc c (List.mem_reverse.mp hc)
  | cons a as ih =>
    intro acc hacc t ht
    simp only [splitWsAux] at ht
    by_cases ha : pySpace a = true
    · rw [if_pos ha] at ht
      split at ht
      · exact ih [] (by simp) t ht
      · next h =>
        rcases List.mem_cons.mp ht with h1 | h1
        · subst h1
          refine ⟨?_, ?_⟩
          · intro hnil
            rw [List.reverse_eq_nil_iff] at hnil
            simp [hnil] at h
          · intro c hc
            exact hacc c (List.mem_reverse.mp hc)
        · exact ih [] (by simp) t h1
    · rw [if_neg ha] at ht
      refine ih (a :: acc) ?_ t ht
      intro c hc
      rcases List.mem_cons.mp hc with h1 | h1
      · subst h1; exact Bool.not_eq_true _ ▸ (by simpa using ha)
      · exact hacc c h1

theorem splitWs_good (l : List Char) :
    ∀ t ∈ splitWs l, t ≠ [] ∧ ∀ c ∈ t, pySpace c = false :=
  splitWsAux_good l [] (by simp)

theorem splitWsAux_chars (p : Char → Prop) (l : List Char) : ∀ (acc : List Char),
    (∀ c ∈ l, p c) → (∀ c ∈ acc, p c) →
    ∀ t ∈ splitWsAux l acc, ∀ c ∈ t, p c := by
  induction l with
  | nil =>
    intro acc _ hacc t ht c hc
    simp only [splitWsAux] at ht
    split at ht
    · simp at ht
    · simp only [List.mem_singleton] at ht
      subst ht
      exact hacc c (List.mem_reverse.mp hc)
  | cons a as ih =>
    intro acc hl hacc t ht
    simp only [splitWsAux] at ht
    have hl' : ∀ c ∈ as, p c := fun c hc => hl c (List.mem_cons_of_mem _ hc)
    by_cases ha : pySpace a = true
    · rw [if_pos ha] at ht
      split at ht
      · exact ih [] hl' (by simp) t ht
      · rcases List.mem_cons.mp ht with h1 | h1
        · subst h1
          intro c hc
          exact hacc c (List.mem_reverse.mp hc)
        · exact ih [] hl' (by simp) t h1
    · rw [if_neg ha] at ht
      refine ih (a :: acc) hl' ?_ t ht
      intro c hc
      rcases List.mem_cons.mp hc with h1 | h1
      · subst h1; exact hl _ (List.mem_cons_self _ _)
      · exact hacc c h1

theorem splitWsAux_chunk {w : List Char} (hw : ∀ c ∈ w, pySpace c = false) :
    ∀ (r acc : List Char), splitWsAux (w ++ r) acc = splitWsAux r (w.reverse ++ acc) := by
  induction w with
  | nil => intro r acc; simp
  | cons a as ih =>
    intro r acc
    have ha : pySpace a = false := hw a (List.mem_cons_self _ _)
    show splitWsAux (a :: (as ++ r)) acc = _
    simp only [splitWsAux, ha, Bool.false_eq_true, if_false]
    rw [ih (fun c hc => hw c (List.mem_cons_of_mem _ hc)) r (a :: acc)]
    simp [List.append_assoc]

theorem joinWords_cons_cons (w w' : List Char) (ws : List (List Char)) :
    joinWords (w :: w' :: ws) = w ++ ' ' :: joinWords (w' :: ws) := rfl

theorem splitWs_joinWords : ∀ (ts : List (List Char)),
    (∀ t ∈ ts, t ≠ [] ∧ ∀ c ∈ t, pySpace c = false) →
    splitWs (joinWords ts) = ts := by
  intro ts
  induction ts with
  | nil => intro _; rfl
  | cons w ws ih =>
    intro h
    obtain ⟨hw1, hw2⟩ := h w (List.mem_cons_self _ _)
    cases ws with
    | nil =>
      show splitWs w = [w]
      unfold splitWs
      have h1 : splitWsAux (w ++ []) [] = splitWsAux [] (w.reverse ++ []) :=
        splitWsAux_chunk hw2 [] []
      rw [List.append_nil] at h1
      rw [h1]
      simp only [splitWsAux, List.append_nil]
      rw [if_neg, List.reverse_reverse]
      simp [List.isEmpty_iff, hw1]
    | cons w' ws' =>
      rw [joinWords_cons_cons]
      unfold splitWs
      rw [splitWsAux_chunk hw2 (' ' :: joinWords (w' :: ws')) []]
      have hsp : pySpace ' ' = true := rfl
      simp only [splitWsAux, hsp, if_pos, List.append_nil]
      rw [if_neg (by simp [List.isEmpty_iff, hw1]), List.reverse_reverse]
      have hih := ih (fun t ht => h t (List.mem_cons_of_mem _ ht))
      unfold splitWs at hih
      rw [hih]

theorem dropWhile_cons_false {a : Char} {l : List Char} (h : pySpace a = false) :
    (a :: l).dropWhile pySpace = a :: l := by
  simp [List.dropWhile_cons, h]

theorem joinWords_reverse_shape : ∀ (ts : List (List Char)),
    (∀ t ∈ ts, t ≠ [] ∧ ∀ c ∈ t, pySpace c = false) → ts ≠ [] →
    ∃ c r, (joinWords ts).reverse = c :: r ∧ pySpace c = false := by
  intro ts
  induction ts with
  | nil => intro _ h; exact absurd rfl h
  | cons w ws ih =>
    intro h _
    obtain ⟨hw1, hw2⟩ := h w (List.mem_cons_self _ _)
    cases ws with
    | nil =>
      show ∃ c r, w.reverse = c :: r ∧ pySpace c = false
      cases hr : w.reverse with
      | nil => exact absurd (List.reverse_eq_nil_iff.mp hr) hw1
      | cons c r =>
        refine ⟨c, r, rfl, hw2 c ?_⟩
        rw [← List.mem_reverse, hr]
        exact List.mem_cons_self _ _
    | cons w' ws' =>
      obtain ⟨c, r, hrev, hc⟩ := ih (fun t ht => h t (List.mem_cons_of_mem _ ht)) (by simp)
      refine ⟨c, r ++ ' ' :: w.reverse, ?_, hc⟩
      rw [joinWords_cons_cons, List.reverse_append, List.reverse_cons, List.append_assoc,
        hrev]
      rfl

theorem joinWords_head_shape : ∀ (ts : List (List Char)),
    (∀ t ∈ ts, t ≠ [] ∧ ∀ c ∈ t, pySpace c = false) → ts ≠ [] →
    ∃ c r, joinWords ts = c :: r ∧ pySpace c = false := by
  intro ts h hne
  cases ts with
  | nil => exact absurd rfl hne
  | cons w ws =>
    obtain ⟨hw1, hw2⟩ := h w (List.mem_cons_self _ _)
    cases hw : w with
    | nil => exact absurd hw hw1
    | cons a w' =>
      have ha : pySpace a = false := hw2 a (by rw [hw]; exact List.mem_cons_self _ _)
      cases ws with
      | nil => exact ⟨a, w', by simp [joinWords, hw], ha⟩
      | cons w'' ws' =>
        refine ⟨a, w' ++ ' ' :: joinWords (w'' :: ws'), ?_, ha⟩
        rw [joinWords_cons_cons]
        rfl

theorem stripWs_joinWords (ts : List (List Char))
    (h : ∀ t ∈ ts, t ≠ [] ∧ ∀ c ∈ t, pySpace c = false) :
    stripWs (joinWords ts) = joinWords ts := by
  cases ts with
  | nil => rfl
  | cons w ws =>
    unfold stripWs dropTrailWs
    obtain ⟨a, r0, hj, ha⟩ := joinWords_head_shape (w :: ws) h (by simp)
    rw [hj, dropWhile_cons_false ha, ← hj]
    obtain ⟨c, r, hrev, hc⟩ := joinWords_reverse_shape (w :: ws) h (by simp)
    rw [hrev, dropWhile_cons_false hc, ← hrev, List.reverse_reverse]

theorem mem_joinWords {c : Char} : ∀ {ts : List (List Char)},
    c ∈ joinWords ts → c = ' ' ∨ ∃ t ∈ ts, c ∈ t := by
  intro ts
  induction ts with
  | nil => intro h; simp [joinWords] at h
  | cons w ws ih =>
    intro h
    cases ws with
    | nil =>
      right
      exact ⟨w, List.mem_cons_self _ _, h⟩
    | cons w' ws' =>
      rw [joinWords_cons_cons] at h
      rcases List.mem_append.mp h with h1 | h1
      · exact Or.inr ⟨w, List.mem_cons_self _ _, h1⟩
      · rcases List.mem_cons.mp h1 with h2 | h2
        · exact Or.inl h2
        · rcases ih h2 with h3 | ⟨t, ht, hc⟩
          · exact Or.inl h3
          · exact Or.inr ⟨t, List.mem_cons_of_mem _ ht, hc⟩

theorem mem_filterStar {c : Char} {l : List Char} (h : c ∈ filterStar l) :
    ¬c = '*' := by
  have := (List.mem_filter.mp h).2
  simpa using this

theorem filterStar_eq_self {l : List Char} (h : ∀ c ∈ l, ¬c = '*') :
    filterStar l = l := by
  apply List.filter_eq_self.mpr
  intro a ha
  simpa using h a ha

theorem cleanTextL_eq_join (l : List Char) :
    cleanTextL l = joinWords (splitWs (filterStar l)) := by
  unfold cleanTextL
  exact stripWs_joinWords _ (splitWs_good _)

theorem cleanTextL_noStar (l : List Char) : ∀ c ∈ cleanTextL l, ¬c = '*' := by
  intro c hc
  rw [cleanTextL_eq_join] at hc
  rcases mem_joinWords hc with h | ⟨t, ht, hct⟩
  · subst h; decide
  · exact mem_filterStar (splitWsAux_chars (· ∈ filterStar l) _ []
      (fun c hc => hc) (by simp) t ht c hct)

theorem cleanTextL_idem (l : List Char) : cleanTextL (cleanTextL l) = cleanTextL l := by
  conv_lhs => rw [cleanTextL_eq_join l]
  have hgood := splitWs_good (filterStar l)
  have hstar : ∀ c ∈ joinWords (splitWs (filterStar l)), ¬c = '*' := by
    rw [← cleanTextL_eq_join]; exact cleanTextL_noStar l
  unfold cleanTextL
  rw [filterStar_eq_self hstar, splitWs_joinWords _ hgood,
    stripWs_joinWords _ hgood, ← cleanTextL_eq_join]

theorem chain'_token {w : List Char} (hw : ∀ c ∈ w, pySpace c = false) :
    List.Chain' (fun a b => ¬(pySpace a = true ∧ pySpace b = true)) w := by
  induction w with
  | nil => simp
  | cons a w ih =>
    rw [List.chain'_cons']
    constructor
    · intro y _ hy
      rw [hw a (List.mem_cons_self _ _)] at hy
      exact absurd hy.1 (by simp)
    · exact ih (fun c hc => hw c (List.mem_cons_of_mem _ hc))

theorem chain'_joinWords : ∀ (ts : List (List Char)),
    (∀ t ∈ ts, t ≠ [] ∧ ∀ c ∈ t, pySpace c = false) →
    List.Chain' (fun a b => ¬(pySpace a = true ∧ pySpace b = true)) (joinWords ts) := by
  intro ts
  induction ts with
  | nil => intro _; simp [joinWords]
  | cons w ws ih =>
    intro h
    obtain ⟨hw1, hw2⟩ := h w (List.mem_cons_self _ _)
    cases ws with
    | nil => exact chain'_token hw2
    | cons w' ws' =>
      rw [joinWords_cons_cons, List.chain'_append]
      refine ⟨chain'_token hw2, ?_, ?_⟩
      · rw [List.chain'_cons']
        have hrest := ih (fun t ht => h t (List.mem_cons_of_mem _ ht))
        refine ⟨?_, hrest⟩
        intro y hy hcontra
        obtain ⟨a, r, hj, ha⟩ := joinWords_head_shape (w' :: ws')
          (fun t ht => h t (List.mem_cons_of_mem _ ht)) (by simp)
        rw [hj] at hy
        simp only [List.head?_cons, Option.mem_def, Option.some_inj] at hy
        subst hy
        rw [ha] at hcontra
        exact absurd hcontra.2 (by simp)
      · intro x hx y hy hcontra
        have hxw : x ∈ w := by
          rcases List.mem_getLast?_eq_getLast hx with ⟨hne, hxl⟩
          rw [hxl]
          exact List.getLast_mem hne
        rw [hw2 x hxw] at hcontra
        exact absurd hcontra.1 (by simp)

theorem clean_text_eq (s : String) : clean_text s = ⟨cleanTextL s.data⟩ := by
  unfold clean_text
  split
  · next h => subst h; rfl
  · rfl

/-- C10: `clean_text` is total and idempotent; its output contains no
asterisk and no two consecutive whitespace characters, and empty (falsy)
input maps to the empty string. -/
theorem C10_clean_text_idem_total : ∀ s : String,
    clean_text (clean_text s) = clean_text s ∧
    (∀ c ∈ (clean_text s).data, ¬c = '*') ∧
    List.Chain' (fun a b => ¬(pySpace a = true ∧ pySpace b = true)) (clean_text s).data ∧
    clean_text "" = "" := by
  intro s
  refine ⟨?_, ?_, ?_, rfl⟩
  · rw [clean_text_eq s, clean_text_eq ⟨cleanTextL s.data⟩]
    show (⟨cleanTextL (cleanTextL s.data)⟩ : String) = _
    rw [cleanTextL_idem]
  · rw [clean_text_eq]
    exact cleanTextL_noStar s.data
  · rw [clean_text_eq]
    show List.Chain' _ (cleanTextL s.data)
    rw [cleanTextL_eq_join]
    exact chain'_joinWords _ (splitWs_good _)

/-! ### `str.lower` commutes with `clean_text` -/

theorem filterStar_map (l : List Char) :
    filterStar (l.map lowerChar) = (filterStar l).map lowerChar := by
  unfold filterStar
  rw [List.filter_map]
  congr 1
  apply List.filter_congr
  intro c _
  simp only [Function.comp_apply]
  rw [star_lowerChar]

theorem splitWsAux_map (l : List Char) : ∀ (acc : List Char),
    splitWsAux (l.map lowerChar) (acc.map lowerChar) =
      (splitWsAux l acc).map (List.map lowerChar) := by
  induction l with
  | nil =>
    intro acc
    simp only [List.map_nil, splitWsAux]
    by_cases h : acc.isEmpty
    · rw [if_pos (by simpa using h), if_pos h]
      rfl
    · rw [if_neg (by simpa using h), if_neg h]
      simp [List.map_reverse]
  | cons a as ih =>
    intro acc
    simp only [List.map_cons, splitWsAux, pySpace_lowerChar]
    by_cases ha : pySpace a = true
    · rw [if_pos ha, if_pos ha]
      by_cases h : acc.isEmpty
      · rw [if_pos (by simpa using h), if_pos h]
        exact ih []
      · rw [if_neg (by simpa using h), if_neg h]
        rw [show ([] : List Char) = List.map lowerChar [] from rfl, ih []]
        simp [List.map_reverse]
    · rw [if_neg ha, if_neg ha]
      exact ih (a :: acc)

theorem splitWs_map (l : List Char) :
    splitWs (l.map lowerChar) = (splitWs l).map (List.map lowerChar) :=
  splitWsAux_map l []

theorem joinWords_map : ∀ (ts : List (List Char)),
    joinWords (ts.map (List.map lowerChar)) = (joinWords ts).map lowerChar := by
  intro ts
  induction ts with
  | nil => rfl
  | cons w ws ih =>
    cases ws with
    | nil => rfl
    | cons w' ws' =>
      simp only [List.map_cons] at ih ⊢
      rw [joinWords_cons_cons, joinWords_cons_cons, ih]
      simp [lowerChar_space]

theorem dropWhileWs_map (l : List Char) :
    (l.map lowerChar).dropWhile pySpace = (l.dropWhile pySpace).map lowerChar := by
  induction l with
  | nil => rfl
  | cons a as ih =>
    simp only [List.map_cons, List.dropWhile_cons, pySpace_lowerChar]
    by_cases h : pySpace a = true
    · rw [if_pos h, if_pos h]
      exact ih
    · rw [if_neg h, if_neg h]
      rfl

theorem stripWs_map (l : List Char) :
    stripWs (l.map lowerChar) = (stripWs l).map lowerChar := by
  unfold stripWs dropTrailWs
  rw [dropWhileWs_map, ← List.map_reverse, dropWhileWs_map, ← List.map_reverse]

theorem cleanTextL_map (l : List Char) :
    cleanTextL (l.map lowerChar) = (cleanTextL l).map lowerChar := by
  unfold cleanTextL
  rw [filterStar_map, splitWs_map, joinWords_map, stripWs_map]

theorem clean_text_pyLower (s : String) :
    clean_text (pyLower s) = pyLower (clean_text s) := by
  rw [clean_text_eq, clean_text_eq]
  show (⟨cleanTextL (s.data.map lowerChar)⟩ : String) = ⟨(cleanTextL s.data).map lowerChar⟩
  rw [cleanTextL_map]

/-- C6: every input equal to "Non détecté" in any letter case, or to the
accent-stripped "non detecte" in any letter case, or empty, is normalized
to exactly `"-"` — both by `format_accompagnement` (menu_extractor.py) and
by the accompaniment normalization of `extract_table_data`
(docupipe_extractor.py). -/
theorem C6_placeholder_normalization : ∀ s : String,
    (s.data.map lowerChar = "Non détecté".data.map lowerChar ∨
     s.data.map lowerChar = "non detecte".data.map lowerChar ∨ s = "") →
    format_accompagnement s = "-" ∧ Docupipe.normalize_accompagnement s = "-" := by
  intro s h
  have key : pyLower s = "non détecté" ∨ pyLower s = "non detecte" ∨ s = "" := by
    rcases h with h | h | h
    · left
      show (⟨s.data.map lowerChar⟩ : String) = _
      rw [h]
      decide
    · right; left
      show (⟨s.data.map lowerChar⟩ : String) = _
      rw [h]
      decide
    · right; right; exact h
  constructor
  · unfold format_accompagnement
    rcases key with hk | hk | hk
    · exact if_pos (Or.inl hk)
    · exact if_pos (Or.inr (Or.inl hk))
    · subst hk
      exact if_pos (Or.inr (Or.inr rfl))
  · unfold Docupipe.normalize_accompagnement
    rcases key with hk | hk | hk
    · have h1 : pyLower (clean_text s) = "non détecté" := by
        rw [← clean_text_pyLower, hk]
        decide
      simp [h1]
    · have h1 : pyLower (clean_text s) = "non detecte" := by
        rw [← clean_text_pyLower, hk]
        decide
      simp [h1]
    · subst hk
      decide

/-- C6 witness: `"NON DÉTECTÉ"` is normalized to `"-"` by both code paths. -/
theorem C6_witness :
    format_accompagnement "NON DÉTECTÉ" = "-" ∧
    Docupipe.normalize_accompagnement "NON DÉTECTÉ" = "-" :=
  C6_placeholder_normalization "NON DÉTECTÉ" (Or.inl (by decide))

/-- C7: both dessert formatters rewrite `"Yaourt Fruit du jour"` to
`"Yaourt / Fruit du jour"`, and the docupipe formatter returns its input
unchanged whenever no category-prefix pattern matches and the keyword
segmentation yields at most one segment. -/
theorem C7_dessert_separator :
    MenuExtractor.format_dessert "Yaourt Fruit du jour" = "Yaourt / Fruit du jour" ∧
    Docupipe.format_dessert "Yaourt Fruit du jour" = "Yaourt / Fruit du jour" ∧
    (∀ t : String, t ≠ "" →
      Docupipe.matchCatCI "Sélection de notre affineur".data t.data = none →
      Docupipe.matchCatCI "Yaourt".data t.data = none →
      Docupipe.matchCatCI "Fromage blanc".data t.data = none →
      Docupipe.matchCatCI "Fromage qui chlingue".data t.data = none →
      (Docupipe.segmentsOf t.data).length ≤ 1 →
      Docupipe.format_dessert t = t) := by
  refine ⟨by decide, by decide, ?_⟩
  intro t ht h1 h2 h3 h4 h5
  unfold Docupipe.format_dessert
  rw [if_neg ht]
  simp only [h1, h2, h3, h4]
  rw [if_neg (by omega)]

/-- C7 witness: a dessert cell with no category prefix and a single
segment passes through unchanged. -/
theorem C7_witness : Docupipe.format_dessert "Tarte aux pommes" = "Tarte aux pommes" :=
  C7_dessert_separator.2.2 "Tarte aux pommes" (by decide) (by decide) (by decide)
    (by decide) (by decide) (by decide)

/-! ### Filename date-range parsing -/

theorem month_map_range : ∀ kv ∈ month_map, 1 ≤ kv.2 ∧ kv.2 ≤ 12 := by decide

theorem findMonthSub_range {hay : List Char} {m : Nat} (h : findMonthSub hay = some m) :
    1 ≤ m ∧ m ≤ 12 := by
  unfold findMonthSub at h
  cases hf : month_map.find? (fun kv => containsL kv.1.data hay) with
  | none => rw [hf] at h; simp at h
  | some kv =>
    rw [hf] at h
    simp only [Option.map_some'] at h
    injection h with h2
    subst h2
    exact month_map_range kv (List.mem_of_find?_eq_some hf)

theorem getD_findMonthSub_range (mn : List Char) :
    1 ≤ (findMonthSub mn).getD 9 ∧ (findMonthSub mn).getD 9 ≤ 12 := by
  cases hm : findMonthSub mn with
  | none => simp
  | some m => simpa using findMonthSub_range hm

/-- `parse_filename_date_range`, fallback path, no month found. -/
theorem parse_range_eq_default (f : String) (hs : searchMenuDu (pyLower f).data = none)
    (hm : findMonthSub (pyLower f).data = none) :
    MenuExtractor.parse_filename_date_range f = ⟨9, 9, none, none⟩ := by
  simp only [MenuExtractor.parse_filename_date_range, hs, hm]

/-- `parse_filename_date_range`, fallback path, bare month name found. -/
theorem parse_range_eq_fallback (f : String) (m : Nat)
    (hs : searchMenuDu (pyLower f).data = none)
    (hm : findMonthSub (pyLower f).data = some m) :
    MenuExtractor.parse_filename_date_range f = ⟨m, m, none, none⟩ := by
  simp only [MenuExtractor.parse_filename_date_range, hs, hm]

/-- `parse_filename_date_range`, month-spanning branch (`start_day > end_day`). -/
theorem parse_range_eq_span (f : String) (sd ed : Nat) (mn : List Char)
    (hs : searchMenuDu (pyLower f).data = some (sd, ed, mn)) (hlt : ed < sd) :
    MenuExtractor.parse_filename_date_range f =
      ⟨if 1 < (findMonthSub mn).getD 9 then (findMonthSub mn).getD 9 - 1 else 12,
       (findMonthSub mn).getD 9,
       some (if days_in_month.getD
          ((if 1 < (findMonthSub mn).getD 9 then (findMonthSub mn).getD 9 - 1 else 12) - 1) 0 < sd
        then days_in_month.getD
          ((if 1 < (findMonthSub mn).getD 9 then (findMonthSub mn).getD 9 - 1 else 12) - 1) 0
        else sd),
       some ed⟩ := by
  simp only [MenuExtractor.parse_filename_date_range, hs, if_pos hlt]

/-- `parse_filename_date_range`, same-month branch. -/
theorem parse_range_eq_same (f : String) (sd ed : Nat) (mn : List Char)
    (hs : searchMenuDu (pyLower f).data = some (sd, ed, mn)) (hlt : ¬ed < sd) :
    MenuExtractor.parse_filename_date_range f =
      ⟨(findMonthSub mn).getD 9, (findMonthSub mn).getD 9, some sd, some ed⟩ := by
  simp only [MenuExtractor.parse_filename_date_range, hs, if_neg hlt]

/-- The two month fields of `parse_filename_date_range` always lie in 1..12. -/
theorem parse_range_months (f : String) :
    1 ≤ (MenuExtractor.parse_filename_date_range f).start_month ∧
    (MenuExtractor.parse_filename_date_range f).start_month ≤ 12 ∧
    1 ≤ (MenuExtractor.parse_filename_date_range f).end_month ∧
    (MenuExtractor.parse_filename_date_range f).end_month ≤ 12 := by
  cases hs : searchMenuDu (pyLower f).data with
  | none =>
    cases hm : findMonthSub (pyLower f).data with
    | none =>
      rw [parse_range_eq_default f hs hm]
      dsimp only
      omega
    | some m =>
      have := findMonthSub_range hm
      rw [parse_range_eq_fallback f m hs hm]
      dsimp only
      omega
  | some v =>
    obtain ⟨sd, ed, mn⟩ := v
    have hem := getD_findMonthSub_range mn
    by_cases hlt : ed < sd
    · rw [parse_range_eq_span f sd ed mn hs hlt]
      dsimp only
      constructor
      · split <;> omega
      refine ⟨?_, ?_, ?_⟩ <;> first | (split <;> omega) | omega
    · rw [parse_range_eq_same f sd ed mn hs hlt]
      dsimp only
      omega

/-- C9: `parse_filename_date_range` is total and always yields months in
1..12; when the parsed start day exceeds the end day, the start month is
the end month minus one (December for an end month of January) and the
start day is clamped to the start month's length when it overflows. -/
theorem C9_parse_filename_range : ∀ f : String,
    (1 ≤ (MenuExtractor.parse_filename_date_range f).start_month ∧
     (MenuExtractor.parse_filename_date_range f).start_month ≤ 12 ∧
     1 ≤ (MenuExtractor.parse_filename_date_range f).end_month ∧
     (MenuExtractor.parse_filename_date_range f).end_month ≤ 12) ∧
    (∀ sd ed mn, searchMenuDu (pyLower f).data = some (sd, ed, mn) → ed < sd →
      (MenuExtractor.parse_filename_date_range f).end_month = (findMonthSub mn).getD 9 ∧
      (MenuExtractor.parse_filename_date_range f).start_month =
        (if (findMonthSub mn).getD 9 = 1 then 12 else (findMonthSub mn).getD 9 - 1) ∧
      (MenuExtractor.parse_filename_date_range f).start_day =
        some (min sd (days_in_month.getD
          ((MenuExtractor.parse_filename_date_range f).start_month - 1) 0))) := by
  intro f
  refine ⟨parse_range_months f, ?_⟩
  intro sd ed mn hs hlt
  have hem := getD_findMonthSub_range mn
  rw [parse_range_eq_span f sd ed mn hs hlt]
  dsimp only
  refine ⟨rfl, ?_, ?_⟩
  · by_cases h1 : (findMonthSub mn).getD 9 = 1
    · have h2 : ¬1 < (findMonthSub mn).getD 9 := by omega
      rw [if_neg h2, if_pos h1]
    · have h2 : 1 < (findMonthSub mn).getD 9 := by omega
      rw [if_pos h2, if_neg h1]
  · congr 1
    rw [Nat.min_def]
    set maxd := days_in_month.getD
      ((if 1 < (findMonthSub mn).getD 9 then (findMonthSub mn).getD 9 - 1 else 12) - 1) 0 with hmaxd
    by_cases h2 : maxd < sd
    · have h3 : ¬sd ≤ maxd := by omega
      rw [if_pos h2, if_neg h3]
    · have h3 : sd ≤ maxd := by omega
      rw [if_neg h2, if_pos h3]

/-- C9 witness at the month-spanning filename of Scenario A. -/
theorem C9_witness :
    (1 ≤ (MenuExtractor.parse_filename_date_range "menu-du-29-au-03-octobre.jpg").start_month ∧
     (MenuExtractor.parse_filename_date_range "menu-du-29-au-03-octobre.jpg").start_month ≤ 12 ∧
     1 ≤ (MenuExtractor.parse_filename_date_range "menu-du-29-au-03-octobre.jpg").end_month ∧
     (MenuExtractor.parse_filename_date_range "menu-du-29-au-03-octobre.jpg").end_month ≤ 12) ∧
    (MenuExtractor.parse_filename_date_range "menu-du-29-au-03-octobre.jpg").end_month =
      (findMonthSub "octobre".data).getD 9 ∧
    (MenuExtractor.parse_filename_date_range "menu-du-29-au-03-octobre.jpg").start_month =
      (if (findMonthSub "octobre".data).getD 9 = 1 then 12
       else (findMonthSub "octobre".data).getD 9 - 1) ∧
    (MenuExtractor.parse_filename_date_range "menu-du-29-au-03-octobre.jpg").start_day =
      some (min 29 (days_in_month.getD
        ((MenuExtractor.parse_filename_date_range "menu-du-29-au-03-octobre.jpg").start_month - 1) 0)) :=
  ⟨(C9_parse_filename_range "menu-du-29-au-03-octobre.jpg").1,
   (C9_parse_filename_range "menu-du-29-au-03-octobre.jpg").2 29 3 "octobre".data
     (by decide) (by decide)⟩

/-! ### Date construction and clamping -/

theorem calc_month_day_snd (f : String) (d : Nat) :
    (MenuExtractor.calc_month_day f d).2 = d := by
  unfold MenuExtractor.calc_month_day
  dsimp only
  split
  · split
    · split
      · rfl
      · split
        · rfl
        · rfl
    · rfl
  · rfl

theorem calc_month_day_fst_range (f : String) (d : Nat) :
    1 ≤ (MenuExtractor.calc_month_day f d).1 ∧ (MenuExtractor.calc_month_day f d).1 ≤ 12 := by
  have h := parse_range_months f
  unfold MenuExtractor.calc_month_day
  dsimp only
  split
  · split
    · split
      · exact ⟨h.1, h.2.1⟩
      · split
        · exact ⟨h.2.2.1, h.2.2.2⟩
        · exact ⟨h.2.2.1, h.2.2.2⟩
    · exact ⟨h.1, h.2.1⟩
  · exact ⟨h.2.2.1, h.2.2.2⟩

theorem days_in_month_bounds : ∀ m, 1 ≤ m → m ≤ 12 →
    28 ≤ days_in_month.getD (m-1) 0 ∧ days_in_month.getD (m-1) 0 ≤ 31 := by
  intro m h1 h2
  interval_cases m <;> decide

theorem mkDate2025_valid (m d : Nat)
    (h : 1 ≤ m ∧ m ≤ 12 ∧ 1 ≤ d ∧ d ≤ days_in_month.getD (m-1) 0) :
    mkDate2025 m d = some (m, d) := by
  unfold mkDate2025
  exact if_pos h

theorem mkDate2025_invalid_high (m d : Nat) (h : days_in_month.getD (m-1) 0 < d) :
    mkDate2025 m d = none := by
  unfold mkDate2025
  apply if_neg
  rintro ⟨_, _, _, h4⟩
  omega

theorem parse_filename_dates_fst (f : String) :
    (Docupipe.parse_filename_dates f).1 = 9 ∨ (Docupipe.parse_filename_dates f).1 = 10 := by
  unfold Docupipe.parse_filename_dates
  dsimp only
  split
  · exact Or.inl rfl
  · split
    · exact Or.inl rfl
    · split
      · exact Or.inr rfl
      · exact Or.inl rfl

/-- C4 (amended): for every filename and every day number at least 1, both
date constructors return a date (never raise), and `calculate_menu_date`
clamps an overflowing day to 28. -/
theorem C4_date_clamp : ∀ (f : String) (d : Nat), 1 ≤ d →
    (MenuExtractor.calculate_menu_date f d).isSome = true ∧
    (days_in_month.getD ((MenuExtractor.calc_month_day f d).1 - 1) 0 < d →
      MenuExtractor.calculate_menu_date f d =
        some (formatDate2025 ((MenuExtractor.calc_month_day f d).1, 28))) ∧
    (Docupipe.fix_date_logic f d).isSome = true := by
  intro f d hd
  have hm := calc_month_day_fst_range f d
  have hsnd := calc_month_day_snd f d
  have hdm := days_in_month_bounds _ hm.1 hm.2
  refine ⟨?_, ?_, ?_⟩
  · unfold MenuExtractor.calculate_menu_date
    dsimp only
    by_cases hle : d ≤ days_in_month.getD ((MenuExtractor.calc_month_day f d).1 - 1) 0
    · rw [hsnd, mkDate2025_valid _ _ ⟨hm.1, hm.2, hd, hle⟩]
      rfl
    · rw [hsnd, mkDate2025_invalid_high _ _ (by omega)]
      have hmin : min d 28 = 28 := by omega
      rw [hmin, mkDate2025_valid _ _ ⟨hm.1, hm.2, by omega, by omega⟩]
      rfl
  · intro hover
    unfold MenuExtractor.calculate_menu_date
    dsimp only
    rw [hsnd, mkDate2025_invalid_high _ _ hover]
    have hmin : min d 28 = 28 := by omega
    rw [hmin, mkDate2025_valid _ _ ⟨hm.1, hm.2, by omega, by omega⟩]
    rfl
  · unfold Docupipe.fix_date_logic
    dsimp only
    have h9 : days_in_month.getD (9-1) 0 = 30 := rfl
    have h10 : days_in_month.getD (10-1) 0 = 31 := rfl
    by_cases hc : pyContains (pyLower f) "29-au-03-octobre" = true
    · rw [if_pos hc]
      by_cases h30 : d ≤ 30
      · rw [if_pos h30]
        dsimp only
        rw [mkDate2025_valid 9 d ⟨by omega, by omega, hd, by omega⟩]
        rfl
      · rw [if_neg h30]
        dsimp only
        by_cases h31 : d - 30 ≤ 31
        · rw [mkDate2025_valid 10 (d - 30) ⟨by omega, by omega, by omega, by omega⟩]
          rfl
        · rw [mkDate2025_invalid_high 10 (d - 30) (by omega)]
          have hmin : min (d - 30) 28 = 28 := by omega
          rw [hmin, mkDate2025_valid 10 28 ⟨by omega, by omega, by omega, by omega⟩]
          rfl
    · rw [if_neg hc]
      rcases parse_filename_dates_fst f with hp | hp <;> rw [hp] <;> dsimp only
      · by_cases h30 : d ≤ 30
        · rw [mkDate2025_valid 9 d ⟨by omega, by omega, hd, by omega⟩]
          rfl
        · rw [mkDate2025_invalid_high 9 d (by omega)]
          have hmin : min d 28 = 28 := by omega
          rw [hmin, mkDate2025_valid 9 28 ⟨by omega, by omega, by omega, by omega⟩]
          rfl
      · by_cases h31 : d ≤ 31
        · rw [mkDate2025_valid 10 d ⟨by omega, by omega, hd, by omega⟩]
          rfl
        · rw [mkDate2025_invalid_high 10 d (by omega)]
          have hmin : min d 28 = 28 := by omega
          rw [hmin, mkDate2025_valid 10 28 ⟨by omega, by omega, by omega, by omega⟩]
          rfl

/-- C4 counterexample: the claim as stated fails for day number 0, which
both constructors turn into an uncaught `ValueError` (`min(0, 28)` is
still 0, so the retry raises again). -/
theorem C4_cex_day_zero :
    MenuExtractor.calculate_menu_date "menu-du-06-au-10-octobre.jpg" 0 = none ∧
    Docupipe.fix_date_logic "menu-du-06-au-10-octobre.jpg" 0 = none :=
  ⟨by decide, by decide⟩

/-- C4 witness: day 32 of the Scenario B file is clamped to 2025-10-28. -/
theorem C4_witness :
    (MenuExtractor.calculate_menu_date "menu-du-06-au-10-octobre.jpg" 32).isSome = true ∧
    MenuExtractor.calculate_menu_date "menu-du-06-au-10-octobre.jpg" 32 =
      some (formatDate2025 ((MenuExtractor.calc_month_day "menu-du-06-au-10-octobre.jpg" 32).1, 28)) ∧
    (Docupipe.fix_date_logic "menu-du-06-au-10-octobre.jpg" 32).isSome = true :=
  ⟨(C4_date_clamp "menu-du-06-au-10-octobre.jpg" 32 (by decide)).1,
   (C4_date_clamp "menu-du-06-au-10-octobre.jpg" 32 (by decide)).2.1 (by decide),
   (C4_date_clamp "menu-du-06-au-10-octobre.jpg" 32 (by decide)).2.2⟩

/-- C1: `calculate_menu_date` implements Scenario A (day 29 belongs to
September, day 2 to October), while `fix_date_logic` of the docupipe
extractor maps day 2 of the same filename to 2025-09-02, contradicting its
own comment that days 2 and 3 are October days. -/
theorem C1_month_span_dates :
    MenuExtractor.calculate_menu_date "menu-du-29-au-03-octobre.jpg" 29 = some "2025-09-29" ∧
    MenuExtractor.calculate_menu_date "menu-du-29-au-03-octobre.jpg" 2 = some "2025-10-02" ∧
    (Docupipe.fix_date_logic "menu-du-29-au-03-octobre.jpg" 2).map formatDate2025 =
      some "2025-09-02" :=
  ⟨by decide, by decide, by decide⟩

/-! ### Sorting and merging of the record store -/

theorem strLeL_elim {x y : Char} {xs ys : List Char}
    (h : strLeL (x :: xs) (y :: ys) = true) :
    x.toNat < y.toNat ∨ (x.toNat = y.toNat ∧ strLeL xs ys = true) := by
  simp only [strLeL] at h
  by_cases h1 : x.toNat < y.toNat
  · exact Or.inl h1
  · rw [if_neg h1] at h
    by_cases h2 : y.toNat < x.toNat
    · rw [if_pos h2] at h
      exact absurd h (by simp)
    · rw [if_neg h2] at h
      exact Or.inr ⟨by omega, h⟩

theorem strLeL_intro_lt {x y : Char} (xs ys : List Char) (h : x.toNat < y.toNat) :
    strLeL (x :: xs) (y :: ys) = true := by
  simp only [strLeL]
  rw [if_pos h]

theorem strLeL_intro_eq {x y : Char} {xs ys : List Char} (h : x.toNat = y.toNat)
    (hrest : strLeL xs ys = true) : strLeL (x :: xs) (y :: ys) = true := by
  simp only [strLeL]
  rw [if_neg (by omega), if_neg (by omega)]
  exact hrest

theorem strLeL_total : ∀ a b : List Char, strLeL a b = true ∨ strLeL b a = true := by
  intro a
  induction a with
  | nil => intro b; exact Or.inl rfl
  | cons x xs ih =>
    intro b
    cases b with
    | nil => exact Or.inr rfl
    | cons y ys =>
      rcases Nat.lt_trichotomy x.toNat y.toNat with h | h | h
      · exact Or.inl (strLeL_intro_lt xs ys h)
      · rcases ih ys with h2 | h2
        · exact Or.inl (strLeL_intro_eq h h2)
        · exact Or.inr (strLeL_intro_eq h.symm h2)
      · exact Or.inr (strLeL_intro_lt ys xs h)

theorem strLeL_trans : ∀ a b c : List Char,
    strLeL a b = true → strLeL b c = true → strLeL a c = true := by
  intro a
  induction a with
  | nil => intro b c _ _; rfl
  | cons x xs ih =>
    intro b c hab hbc
    cases b with
    | nil => simp [strLeL] at hab
    | cons y ys =>
      cases c with
      | nil => simp [strLeL] at hbc
      | cons z zs =>
        rcases strLeL_elim hab with h1 | ⟨h1, h1r⟩ <;>
          rcases strLeL_elim hbc with h2 | ⟨h2, h2r⟩
        · exact strLeL_intro_lt xs zs (by omega)
        · exact strLeL_intro_lt xs zs (by omega)
        · exact strLeL_intro_lt xs zs (by omega)
        · exact strLeL_intro_eq (by omega) (ih ys zs h1r h2r)

instance : IsTotal MenuRow rowLe :=
  ⟨fun a b => strLeL_total a.date.data b.date.data⟩

instance : IsTrans MenuRow rowLe :=
  ⟨fun a b c hab hbc => strLeL_trans a.date.data b.date.data c.date.data hab hbc⟩

/-- C3: after the final sort of a pipeline run, adjacent records are in
ascending lexicographic order of their ISO `date` strings — both for the
docupipe merge step and for the menu_extractor sort step. -/
theorem C3_sorted_by_date : ∀ (batches : List (List MenuRow)) (l : List MenuRow),
    List.Chain' (fun a b : MenuRow => strLe a.date b.date = true)
      (process_all_menus_merge batches) ∧
    List.Chain' (fun a b : MenuRow => strLe a.date b.date = true) (sortByDate l) := by
  intro batches l
  exact ⟨(List.sorted_insertionSort rowLe batches.flatten).chain',
    (List.sorted_insertionSort rowLe l).chain'⟩

/-- C2 counterexample: two batches each contributing a record dated
2025-10-02 both survive the merge — the store can hold two records with
the same date, and the older record is not replaced. -/
theorem C2_cex_duplicate_date :
    ((process_all_menus_merge [[rowThu], [rowThu2]]).filter
        (fun r => r.date == "2025-10-02")).length = 2 ∧
    rowThu ∈ process_all_menus_merge [[rowThu], [rowThu2]] ∧
    rowThu2 ∈ process_all_menus_merge [[rowThu], [rowThu2]] ∧
    rowThu ≠ rowThu2 := by
  refine ⟨?_, ?_, ?_, ?_⟩ <;> decide

/-- C2 (amended): the merge step keeps every extracted record — it is a
permutation (a by-date sort) of the concatenated batches, with no
deduplication or replacement by date. -/
theorem C2_merge_keeps_all : ∀ batches : List (List MenuRow),
    (process_all_menus_merge batches).Perm batches.flatten :=
  fun b => List.perm_insertionSort rowLe b.flatten

/-! ### Markdown table parsing and the pipeline run -/

/-- C5 counterexample: the standalone `table_parser.py` implementation
reads day headers from row 0 only, so the header-last table of Scenario E
parses to no records at all there, unlike the header-first table. -/
theorem C5_cex_header_last :
    TableParser.parse_markdown_table headerLastTable = [] ∧
    TableParser.parse_markdown_table headerFirstTable ≠ [] := by
  refine ⟨?_, ?_⟩ <;> decide

/-- C5 (amended): the docupipe `parse_markdown_table` scans every retained
row for day headers, so the header-last table of Scenario E parses to
exactly the same per-day records as the header-first one. -/
theorem C5_header_position_independent :
    Docupipe.parse_markdown_table headerLastTable =
      Docupipe.parse_markdown_table headerFirstTable ∧
    Docupipe.parse_markdown_table headerFirstTable =
      [⟨"Lundi", 6, "A", "C", "E", "G"⟩, ⟨"Mardi", 7, "B", "D", "F", "H"⟩] := by
  refine ⟨?_, ?_⟩ <;> decide

/-- C8 counterexample: the missing-input-file run and the
present-store-but-date-absent run return the very same value
(`None`, nothing persisted) — the two no-data signals are not
distinguishable by the caller. -/
theorem C8_cex_signals_equal :
    extract_and_process_menus none (some "2025-10-02") =
      extract_and_process_menus (some [rowWed]) (some "2025-10-02") ∧
    extract_and_process_menus none (some "2025-10-02") = some ⟨none, false⟩ := by
  refine ⟨?_, ?_⟩ <;> decide

/-- C8 (amended): a missing backing file skips persistence and returns the
explicit `None` signal; a present store whose processed records lack the
requested date returns the same `None` signal, also without persisting. -/
theorem C8_no_data_signals :
    (∀ td : Option String, extract_and_process_menus none td = some ⟨none, false⟩) ∧
    (∀ (rows out : List MenuRow) (td : String), processRows rows = some out →
      (∀ r ∈ out, r.date ≠ td) →
      extract_and_process_menus (some rows) (some td) = some ⟨none, false⟩) := by
  constructor
  · intro td; rfl
  · intro rows out td hpr hnone
    simp only [extract_and_process_menus, hpr]
    have hfilter : out.filter (fun r => r.date == td) = [] := by
      apply List.filter_eq_nil_iff.mpr
      intro r hr
      simpa using hnone r hr
    rw [hfilter]
    rfl

/-- C8 witness: the date-absent branch at a concrete store. -/
theorem C8_witness :
    extract_and_process_menus (some [rowWed]) (some "2025-10-02") = some ⟨none, false⟩ :=
  C8_no_data_signals.2 [rowWed]
    [⟨"menu-du-06-au-10-octobre.jpg", "2025-10-08", "Mercredi", 8, "A", "B", "C", "D"⟩]
    "2025-10-02" (by decide) (by decide)
